import Mathlib

/-!
Verification of the mcp-spotify tool server (`src/index.ts`).

The development shallowly embeds the tool dispatcher of `src/index.ts`:
JSON values, the `validateArgs` presence check, the `ListToolsRequestSchema`
catalog, the `CallToolRequestSchema` switch with its catch-all error wrapper,
and `JSON.stringify(result, null, 2)` together with a model of `JSON.parse`.
The `AuthManager` and the per-resource handlers live in files that are not
part of the sources at hand, so those two components are modelled from the
specification (sections 4.1 to 4.3), as marked on their doc comments.
-/

namespace Spotify

/-- JSON values as produced by the upstream API and consumed by
`JSON.stringify`.  Numbers are modelled as integers: the server never
computes with them, it only passes them through, and the integral case is
what the round-trip statement exercises.  Object fields keep their written
order, as JavaScript objects do. -/
inductive Json where
  | null
  | bool (b : Bool)
  | num (n : Int)
  | str (s : String)
  | arr (items : List Json)
  | obj (fields : List (String × Json))

/-- Argument object of a tool call: an unordered mapping from field names to
values, as in `request.params.arguments`. -/
def Args := List (String × Json)

/-- `field in args` on a plain JavaScript object: key presence. -/
def hasField (a : Args) (f : String) : Bool :=
  a.any (fun p => p.1 == f)

/-- The MCP SDK error codes (`ErrorCode` in
`@modelcontextprotocol/sdk/types.js`). -/
inductive ErrorCode where
  | connectionClosed
  | requestTimeout
  | parseError
  | invalidRequest
  | methodNotFound
  | invalidParams
  | internalError
deriving DecidableEq

/-- `McpError`: a protocol-level error with a code and a message. -/
structure McpError where
  code : ErrorCode
  message : String
deriving DecidableEq

/-- `SpotifyServer.validateArgs` (index.ts lines 39-57): reject an absent
argument object, then reject at the first required field not present in the
object; otherwise hand the object back unchanged. -/
def validateArgs (args : Option Args) (required : List String) : Except McpError Args :=
  match args with
  | none => .error ⟨.invalidParams, "Arguments are required"⟩
  | some a =>
    match required.find? (fun f => !(hasField a f)) with
    | some f => .error ⟨.invalidParams, "Missing required field: " ++ f⟩
    | none => .ok a

/-- The held access token: opaque value plus its expiry timestamp
(seconds). -/
structure TokenInfo where
  value : String
  expiry : Nat
deriving DecidableEq

/-- What the token endpoint would answer: a token value and its lifetime in
seconds. -/
structure ExchangeResult where
  value : String
  expiresIn : Nat
deriving DecidableEq

/-- Modelled from the spec (section 4.1): the safety margin under which a
held token is treated as already expired, "e.g. 60 seconds". -/
def tokenSafetyMargin : Nat := 60

/-- Result of one `AuthManager.getAccessToken` step: the token handed to the
caller, the token held afterwards, and how many exchange requests were
made. -/
structure AuthResult where
  token : TokenInfo
  state : Option TokenInfo
  exchanges : Nat
deriving DecidableEq

/-- Modelled from the spec (section 4.1, `AuthManager` is not among the
sources): if no token is held, or the held token's expiry minus the safety
margin has passed, perform one client-credentials exchange, store the token
with its computed expiry and return it; otherwise return the held token with
no network call. -/
def getAccessToken (now : Nat) (exchange : ExchangeResult) (held : Option TokenInfo) :
    AuthResult :=
  match held with
  | some t =>
    if now + tokenSafetyMargin < t.expiry then
      ⟨t, some t, 0⟩
    else
      ⟨⟨exchange.value, now + exchange.expiresIn⟩,
       some ⟨exchange.value, now + exchange.expiresIn⟩, 1⟩
  | none =>
    ⟨⟨exchange.value, now + exchange.expiresIn⟩,
     some ⟨exchange.value, now + exchange.expiresIn⟩, 1⟩

/-- Modelled from the spec (sections 4.2, 4.3 and 7, the handler and API
client files are not among the sources): a resource handler call either
returns the parsed upstream JSON body unmodified, or fails with an
`ApiError`/`AuthenticationError` carrying a description; handlers introduce
no protocol-level error kinds of their own. -/
inductive ApiOutcome where
  | ok (body : Json)
  | fail (description : String)

/-- The world a tool call runs against: the current time, what the token
endpoint would answer, and what each resource handler call would produce. -/
structure Env where
  now : Nat
  exchange : ExchangeResult
  api : String → Args → ApiOutcome

/-- Outbound network activity of one tool call. -/
inductive NetCall where
  | tokenExchange
  | apiRequest (tool : String) (args : Args)

/-- One `content` entry of a tool result. -/
structure ContentBlock where
  type : String
  text : String

/-- A successful tool result: `{ content: [...] }`. -/
structure ToolResponse where
  content : List ContentBlock

/-- What the `try` block of the call handler can throw: a protocol error
(`McpError`) or any other exception, carried by its description. -/
inductive DispatchExn where
  | mcp (e : McpError)
  | other (description : String)

/-- Output of the `try` block: result or exception, the token held
afterwards, and the network calls made. -/
structure CallOutput where
  result : Except DispatchExn ToolResponse
  state : Option TokenInfo
  calls : List NetCall

/-- Output of a whole tool call, after the `catch` block has translated
exceptions to `McpError`s. -/
structure ToolCallOutput where
  result : Except McpError ToolResponse
  state : Option TokenInfo
  calls : List NetCall

/-- The decimal digit character of `d` (for `d < 10`). -/
def digitCh (d : Nat) : Char := Char.ofNat (48 + d)

/-- The lowercase hexadecimal digit character of `d` (for `d < 16`), as
emitted inside a `\u00XX` escape. -/
def hexCh (d : Nat) : Char :=
  if d < 10 then Char.ofNat (48 + d) else Char.ofNat (87 + d)

/-- Decimal digits of a natural number, most significant first, as
`Number.prototype.toString` prints an integral value. -/
def natDigits (n : Nat) : List Char :=
  if n < 10 then [digitCh n]
  else natDigits (n / 10) ++ [digitCh (n % 10)]
termination_by n
decreasing_by exact Nat.div_lt_self (by omega) (by omega)

/-- Decimal rendering of an integer. -/
def renderInt (n : Int) : List Char :=
  if n < 0 then '-' :: natDigits n.natAbs else natDigits n.toNat

/-- How `JSON.stringify` escapes one character inside a string literal:
quote and backslash get a two-character escape, the named control
characters get theirs, the remaining control characters become `\u00XX`,
and everything else stands for itself. -/
def escapeChar (c : Char) : List Char :=
  if c = '"' then ['\\', '"']
  else if c = '\\' then ['\\', '\\']
  else if c = '\x08' then ['\\', 'b']
  else if c = '\x09' then ['\\', 't']
  else if c = '\x0a' then ['\\', 'n']
  else if c = '\x0c' then ['\\', 'f']
  else if c = '\x0d' then ['\\', 'r']
  else if c.toNat < 32 then ['\\', 'u', '0', '0', hexCh (c.toNat / 16), hexCh (c.toNat % 16)]
  else [c]

/-- Escape every character of a string body. -/
def escList (l : List Char) : List Char := (l.map escapeChar).flatten

/-- A quoted JSON string literal. -/
def renderString (s : String) : List Char := '"' :: escList s.data ++ ['"']

/-- `n` spaces of indentation. -/
def indentChars (n : Nat) : List Char := List.replicate n ' '

mutual

/-- `JSON.stringify(v, null, 2)` at indentation width `ind`: primitives
print on the spot, a non-empty array or object opens its bracket, prints one
entry per line indented two further spaces, and closes the bracket back at
`ind`. -/
def renderJson : Nat → Json → List Char
  | _, .null => ['n', 'u', 'l', 'l']
  | _, .bool true => ['t', 'r', 'u', 'e']
  | _, .bool false => ['f', 'a', 'l', 's', 'e']
  | _, .num n => renderInt n
  | _, .str s => renderString s
  | _, .arr [] => ['[', ']']
  | ind, .arr (x :: xs) =>
    '[' :: '\n' :: (renderElems (ind + 2) x xs ++ '\n' :: (indentChars ind ++ [']']))
  | _, .obj [] => ['\x7b', '\x7d']
  | ind, .obj (f :: fs) =>
    '\x7b' :: '\n' :: (renderFields (ind + 2) f fs ++ '\n' :: (indentChars ind ++ ['\x7d']))
termination_by _ j => sizeOf j

/-- The lines of a non-empty array body, separated by `",\n"`. -/
def renderElems : Nat → Json → List Json → List Char
  | ind, x, [] => indentChars ind ++ renderJson ind x
  | ind, x, y :: ys =>
    indentChars ind ++ renderJson ind x ++ ',' :: '\n' :: renderElems ind y ys
termination_by _ x xs => sizeOf x + sizeOf xs

/-- The lines of a non-empty object body, separated by `",\n"`. -/
def renderFields : Nat → String × Json → List (String × Json) → List Char
  | ind, (k, v), [] => indentChars ind ++ renderString k ++ ':' :: ' ' :: renderJson ind v
  | ind, (k, v), g :: gs =>
    indentChars ind ++ renderString k ++ ':' :: ' ' :: renderJson ind v
      ++ ',' :: '\n' :: renderFields ind g gs
termination_by _ f fs => sizeOf f + sizeOf fs

end

/-- `JSON.stringify(j, null, 2)`. -/
def stringify (j : Json) : String := String.mk (renderJson 0 j)

/-- The network calls a `getAccessToken` step performed. -/
def exchangeCalls (ar : AuthResult) : List NetCall :=
  List.replicate ar.exchanges .tokenExchange

/-- The shared shape of every API-backed `case` of the call handler
(index.ts lines 400-509): the handler method runs against the API client,
which first ensures a valid token (section 4.2) and then issues the request;
a successful body is returned as one text content block holding
`JSON.stringify(result, null, 2)`, a failure is thrown to the `catch`
block. -/
def handleApi (env : Env) (st : Option TokenInfo) (tool : String) (a : Args) : CallOutput :=
  let ar := getAccessToken env.now env.exchange st
  match env.api tool a with
  | .ok body =>
    ⟨.ok ⟨[⟨"text", stringify body⟩]⟩, ar.state, exchangeCalls ar ++ [.apiRequest tool a]⟩
  | .fail d =>
    ⟨.error (.other d), ar.state, exchangeCalls ar ++ [.apiRequest tool a]⟩

/-- A `case` that first runs `validateArgs` on the incoming arguments: a
validation failure is thrown (as an `McpError`) before the handler is
reached, so no network call is made and the held token is untouched. -/
def dispatchValidated (env : Env) (st : Option TokenInfo) (tool : String)
    (args : Option Args) (required : List String) : CallOutput :=
  match validateArgs args required with
  | .error e => ⟨.error (.mcp e), st, []⟩
  | .ok a => handleApi env st tool a

/-- The `try` block of the `CallToolRequestSchema` handler (index.ts lines
390-516): the switch over the tool name.  `get_access_token` asks the
`AuthManager` directly and returns the bare token value as the text block;
`get_available_genres` takes no arguments and skips validation;
`get_new_releases` and `get_recommendations` substitute an empty object for
absent arguments (`request.params.arguments || {}`); every other tool
validates its required fields; an unknown name throws `MethodNotFound`. -/
def dispatchSwitch (env : Env) (st : Option TokenInfo) (name : String)
    (args : Option Args) : CallOutput :=
  match name with
  | "get_access_token" =>
    let ar := getAccessToken env.now env.exchange st
    ⟨.ok ⟨[⟨"text", ar.token.value⟩]⟩, ar.state, exchangeCalls ar⟩
  | "search" => dispatchValidated env st "search" args ["query", "type"]
  | "get_artist" => dispatchValidated env st "get_artist" args ["id"]
  | "get_multiple_artists" => dispatchValidated env st "get_multiple_artists" args ["ids"]
  | "get_artist_top_tracks" => dispatchValidated env st "get_artist_top_tracks" args ["id"]
  | "get_artist_related_artists" =>
    dispatchValidated env st "get_artist_related_artists" args ["id"]
  | "get_artist_albums" => dispatchValidated env st "get_artist_albums" args ["id"]
  | "get_album" => dispatchValidated env st "get_album" args ["id"]
  | "get_album_tracks" => dispatchValidated env st "get_album_tracks" args ["id"]
  | "get_multiple_albums" => dispatchValidated env st "get_multiple_albums" args ["ids"]
  | "get_track" => dispatchValidated env st "get_track" args ["id"]
  | "get_available_genres" => handleApi env st "get_available_genres" []
  | "get_new_releases" =>
    dispatchValidated env st "get_new_releases" (some (args.getD [])) []
  | "get_recommendations" =>
    dispatchValidated env st "get_recommendations" (some (args.getD [])) []
  | "get_audiobook" => dispatchValidated env st "get_audiobook" args ["id"]
  | other => ⟨.error (.mcp ⟨.methodNotFound, "Unknown tool: " ++ other⟩), st, []⟩

/-- The `catch` block (index.ts lines 517-525): an `McpError` is rethrown
as it is, anything else is wrapped into `InternalError` with the message
`"Unexpected error: " ++ description`. -/
def catchWrap : Except DispatchExn ToolResponse → Except McpError ToolResponse
  | .ok r => .ok r
  | .error (.mcp e) => .error e
  | .error (.other d) => .error ⟨.internalError, "Unexpected error: " ++ d⟩

/-- One whole tool call: the `try` block followed by the `catch` block. -/
def callTool (env : Env) (st : Option TokenInfo) (name : String)
    (args : Option Args) : ToolCallOutput :=
  let o := dispatchSwitch env st name args
  ⟨catchWrap o.result, o.state, o.calls⟩

/-- What a tool call reduces to once it reaches a handler: used to state
that validation was passed (or skipped) and the arguments were forwarded
unchanged. -/
def apiCallOutput (env : Env) (st : Option TokenInfo) (tool : String) (a : Args) :
    ToolCallOutput :=
  let o := handleApi env st tool a
  ⟨catchWrap o.result, o.state, o.calls⟩

/-- One entry of the `ListToolsRequestSchema` catalog (index.ts lines
97-388): the advertised name, the `required` list of its input schema, and
the advertised `maxItems` bound of an `ids` field where the schema declares
one. -/
structure ToolDecl where
  name : String
  required : List String
  maxIds : Option Nat
deriving DecidableEq

/-- The declared tool catalog, in source order. -/
def toolCatalog : List ToolDecl :=
  [⟨"get_access_token", [], none⟩,
   ⟨"search", ["query", "type"], none⟩,
   ⟨"get_artist", ["id"], none⟩,
   ⟨"get_multiple_artists", ["ids"], some 50⟩,
   ⟨"get_artist_top_tracks", ["id"], none⟩,
   ⟨"get_artist_related_artists", ["id"], none⟩,
   ⟨"get_artist_albums", ["id"], none⟩,
   ⟨"get_album", ["id"], none⟩,
   ⟨"get_album_tracks", ["id"], none⟩,
   ⟨"get_multiple_albums", ["ids"], some 20⟩,
   ⟨"get_track", ["id"], none⟩,
   ⟨"get_available_genres", [], none⟩,
   ⟨"get_new_releases", [], none⟩,
   ⟨"get_recommendations", [], none⟩,
   ⟨"get_audiobook", ["id"], none⟩]

/-! ### Sample environments used by the witnesses -/

/-- A sample upstream body. -/
def sampleApiBody : Json := .obj [("ok", .bool true)]

/-- A world in which every handler call succeeds with `sampleApiBody`. -/
def sampleEnv : Env := ⟨1000, ⟨"tok", 3600⟩, fun _ _ => .ok sampleApiBody⟩

/-- A world in which every handler call fails with description `"boom"`. -/
def failEnv : Env := ⟨1000, ⟨"tok", 3600⟩, fun _ _ => .fail "boom"⟩

/-! ### Helper lemmas -/

/-- An absent argument object is rejected outright. -/
theorem validateArgs_none (req : List String) :
    validateArgs none req = .error ⟨.invalidParams, "Arguments are required"⟩ := rfl

/-- If every required field is present, validation returns the object
unchanged. -/
theorem validateArgs_ok {a : Args} {req : List String}
    (h : ∀ f ∈ req, hasField a f = true) : validateArgs (some a) req = .ok a := by
  have hnone : req.find? (fun f => !(hasField a f)) = none := by
    rw [List.find?_eq_none]
    intro f hf
    simp [h f hf]
  simp [validateArgs, hnone]

/-- If some required field is missing, validation fails with an
invalid-params error naming a missing field. -/
theorem validateArgs_missing {a : Args} {req : List String} {f : String}
    (hf : f ∈ req) (hmiss : hasField a f = false) :
    ∃ g, validateArgs (some a) req =
      .error ⟨.invalidParams, "Missing required field: " ++ g⟩ := by
  have hsome : (req.find? (fun f => !(hasField a f))).isSome := by
    rw [List.find?_isSome]
    exact ⟨f, hf, by simp [hmiss]⟩
  obtain ⟨g, hg⟩ := Option.isSome_iff_exists.mp hsome
  exact ⟨g, by simp [validateArgs, hg]⟩

/-- Every error `validateArgs` produces carries `InvalidParams`. -/
theorem validateArgs_error_code {args : Option Args} {req : List String} {e : McpError}
    (h : validateArgs args req = .error e) : e.code = .invalidParams := by
  unfold validateArgs at h
  split at h
  · cases h
    rfl
  · split at h
    · cases h
      rfl
    · cases h

/-- After any `getAccessToken` step the held token is the token that was
returned. -/
theorem getAccessToken_state_eq_token (now : Nat) (exch : ExchangeResult)
    (held : Option TokenInfo) :
    (getAccessToken now exch held).state = some (getAccessToken now exch held).token := by
  cases held with
  | none => rfl
  | some t =>
    unfold getAccessToken
    dsimp only
    split <;> rfl

/-- The `try` block only throws `McpError`s of code `InvalidParams` (from
`validateArgs`) or `MethodNotFound` (from the default case); handler
failures travel as plain exceptions. -/
theorem dispatchSwitch_mcp_code (env : Env) (st : Option TokenInfo) (name : String)
    (args : Option Args) (e : McpError)
    (h : (dispatchSwitch env st name args).result = .error (.mcp e)) :
    e.code = .invalidParams ∨ e.code = .methodNotFound := by
  unfold dispatchSwitch at h
  split at h
  case _ => cases h
  case h_16 => cases h; right; rfl
  all_goals {
    first
    | (unfold dispatchValidated at h
       split at h
       case _ heq => cases h; exact Or.inl (validateArgs_error_code heq)
       case _ =>
         unfold handleApi at h
         split at h <;> cases h)
    | (unfold handleApi at h
       split at h <;> cases h)
  }

/-- The `get_access_token` case never throws: its result is the bare token
value as a text block. -/
theorem token_call_result (env : Env) (st : Option TokenInfo) (args : Option Args) :
    (callTool env st "get_access_token" args).result =
      .ok ⟨[⟨"text", (getAccessToken env.now env.exchange st).token.value⟩]⟩ := rfl

/-- A validated case can only surface an invalid-params validation error or
a wrapped internal error. -/
theorem validatedTool_error_code {env : Env} {st : Option TokenInfo} {tool : String}
    {args : Option Args} {req : List String} {e : McpError}
    (h : catchWrap (dispatchValidated env st tool args req).result = .error e) :
    e.code = .invalidParams ∨ e.code = .internalError := by
  unfold dispatchValidated at h
  split at h
  case _ heq =>
    cases h
    exact Or.inl (validateArgs_error_code heq)
  case _ =>
    unfold handleApi at h
    split at h
    · cases h
    · cases h
      right
      rfl

/-- An unvalidated handler case (`get_available_genres`) can only surface a
wrapped internal error. -/
theorem handleApiTool_error_code {env : Env} {st : Option TokenInfo} {tool : String}
    {a : Args} {e : McpError}
    (h : catchWrap (handleApi env st tool a).result = .error e) :
    e.code = .internalError := by
  unfold handleApi at h
  split at h
  · cases h
  · cases h
    rfl

/-- Any error a known tool's call can produce comes from validation or from
wrapping a handler failure. -/
theorem knownTool_error_code (env : Env) (st : Option TokenInfo) (name : String)
    (args : Option Args) (e : McpError)
    (hmem : name ∈ toolCatalog.map ToolDecl.name)
    (h : (callTool env st name args).result = .error e) :
    e.code = .invalidParams ∨ e.code = .internalError := by
  simp only [toolCatalog, List.map, List.mem_cons, List.not_mem_nil, or_false] at hmem
  rcases hmem with rfl | rfl | rfl | rfl | rfl | rfl | rfl | rfl | rfl | rfl | rfl | rfl | rfl | rfl | rfl
  all_goals first
    | (rw [token_call_result] at h; cases h)
    | exact validatedTool_error_code h
    | exact Or.inr (handleApiTool_error_code h)


/-- The common shape of every validated `case`, seen from outside the
`catch` block. -/
def validatedCallOutput (env : Env) (st : Option TokenInfo) (tool : String)
    (args : Option Args) (required : List String) : ToolCallOutput :=
  let o := dispatchValidated env st tool args required
  ⟨catchWrap o.result, o.state, o.calls⟩

/-- A validation failure short-circuits the whole call: the `McpError` comes
back as is, the held token is untouched and no network call is made. -/
theorem validatedCall_error {env : Env} {st : Option TokenInfo} {tool : String}
    {args : Option Args} {req : List String} {e : McpError}
    (h : validateArgs args req = .error e) :
    validatedCallOutput env st tool args req = ⟨.error e, st, []⟩ := by
  unfold validatedCallOutput dispatchValidated
  rw [h]
  rfl

/-- A validation success forwards the object unchanged to the handler. -/
theorem validatedCall_ok {env : Env} {st : Option TokenInfo} {tool : String}
    {args : Option Args} {req : List String} {a : Args}
    (h : validateArgs args req = .ok a) :
    validatedCallOutput env st tool args req = apiCallOutput env st tool a := by
  unfold validatedCallOutput dispatchValidated apiCallOutput
  rw [h]

/-- The `get_access_token` case in one equation. -/
theorem token_call_eq (env : Env) (st : Option TokenInfo) (args : Option Args) :
    callTool env st "get_access_token" args =
      ⟨.ok ⟨[⟨"text", (getAccessToken env.now env.exchange st).token.value⟩]⟩,
       (getAccessToken env.now env.exchange st).state,
       exchangeCalls (getAccessToken env.now env.exchange st)⟩ := rfl

/-- The default case of the switch in one equation. -/
theorem unknownTool_result (env : Env) (st : Option TokenInfo) (args : Option Args)
    (name : String) (h : name ∉ toolCatalog.map ToolDecl.name) :
    (callTool env st name args).result =
      .error ⟨.methodNotFound, "Unknown tool: " ++ name⟩ := by
  simp only [toolCatalog, List.map, List.mem_cons, List.not_mem_nil, or_false] at h
  push_neg at h
  obtain ⟨h1, h2, h3, h4, h5, h6, h7, h8, h9, h10, h11, h12, h13, h14, h15⟩ := h
  unfold callTool dispatchSwitch
  split <;> simp_all [catchWrap]

/-! ### The claims -/

/-- C1: for every catalog tool whose schema lists required fields, a call
with an absent argument object, or one missing a required field, fails with
an invalid-params validation error, leaves the held token untouched, and
makes zero network calls — the handler is never reached. -/
theorem claim1_validation_precedes_network :
    ∀ d ∈ toolCatalog, d.required ≠ [] → ∀ (env : Env) (st : Option TokenInfo),
      callTool env st d.name none =
        ⟨.error ⟨.invalidParams, "Arguments are required"⟩, st, []⟩
      ∧ ∀ (a : Args) (f : String), f ∈ d.required → hasField a f = false →
          ∃ msg, callTool env st d.name (some a) =
            ⟨.error ⟨.invalidParams, msg⟩, st, []⟩ := by
  intro d hd hreq env st
  fin_cases hd
  all_goals first
    | exact absurd rfl hreq
    | {refine ⟨rfl, fun a f hf hmiss => ?_⟩
       obtain ⟨g, hg⟩ := validateArgs_missing hf hmiss
       exact ⟨_, validatedCall_error hg⟩}

/-- C1 witness: `search` without arguments, and `search` missing `query`. -/
theorem claim1_witness :
    callTool sampleEnv none "search" none =
      ⟨.error ⟨.invalidParams, "Arguments are required"⟩, none, []⟩
    ∧ ∃ msg, callTool sampleEnv none "search" (some [("type", .str "track")]) =
        ⟨.error ⟨.invalidParams, msg⟩, none, []⟩ := by
  have h := claim1_validation_precedes_network ⟨"search", ["query", "type"], none⟩
    (by simp [toolCatalog]) (by simp) sampleEnv none
  exact ⟨h.1, h.2 [("type", .str "track")] "query" (by simp) (by rfl)⟩

/-- C2: (spec-modelled `AuthManager`) `getAccessToken` never hands out a
token past its expiry minus the safety margin, and a held token whose
expiry lies within the margin of the current instant is replaced by a fresh
exchange. -/
theorem claim2_no_expired_token (now : Nat) (exch : ExchangeResult)
    (held : Option TokenInfo) (hfresh : tokenSafetyMargin < exch.expiresIn) :
    now + tokenSafetyMargin < (getAccessToken now exch held).token.expiry
    ∧ ∀ t, held = some t → t.expiry ≤ now + tokenSafetyMargin →
        (getAccessToken now exch held).exchanges = 1 := by
  constructor
  · cases held with
    | none =>
      unfold getAccessToken
      dsimp only
      omega
    | some t =>
      unfold getAccessToken
      dsimp only
      split
      · dsimp only
        omega
      · dsimp only
        omega
  · rintro t rfl hexp
    unfold getAccessToken
    dsimp only
    rw [if_neg (by omega)]

/-- C2 witness: at time 0 with a held token expiring at 50 and a fresh
lifetime of 3600, the returned token is valid past the margin and one
exchange happened. -/
theorem claim2_witness :
    0 + tokenSafetyMargin <
      (getAccessToken 0 ⟨"tok", 3600⟩ (some ⟨"old", 50⟩)).token.expiry
    ∧ (getAccessToken 0 ⟨"tok", 3600⟩ (some ⟨"old", 50⟩)).exchanges = 1 := by
  have h := claim2_no_expired_token 0 ⟨"tok", 3600⟩ (some ⟨"old", 50⟩) (by decide)
  exact ⟨h.1, h.2 ⟨"old", 50⟩ rfl (by decide)⟩

/-- C3: the `catch` block passes `McpError`s through with their kind, wraps
every other exception into a single internal error carrying the original
description, and consequently every error the dispatcher emits carries one
of the codes invalid-params, method-not-found or internal-error. -/
theorem claim3_protocol_error_codes (env : Env) (st : Option TokenInfo)
    (name : String) (args : Option Args) :
    (∀ e, (dispatchSwitch env st name args).result = .error (.mcp e) →
      (callTool env st name args).result = .error e)
    ∧ (∀ d, (dispatchSwitch env st name args).result = .error (.other d) →
      (callTool env st name args).result =
        .error ⟨.internalError, "Unexpected error: " ++ d⟩)
    ∧ (∀ e, (callTool env st name args).result = .error e →
      e.code = .invalidParams ∨ e.code = .methodNotFound ∨ e.code = .internalError) := by
  have hform : (callTool env st name args).result =
      catchWrap (dispatchSwitch env st name args).result := rfl
  refine ⟨?_, ?_, ?_⟩
  · intro e h
    rw [hform, h]
    rfl
  · intro d h
    rw [hform, h]
    rfl
  · intro e h
    rw [hform] at h
    cases hres : (dispatchSwitch env st name args).result with
    | ok r => rw [hres] at h; cases h
    | error ex =>
      rw [hres] at h
      cases ex with
      | mcp e0 =>
        simp only [catchWrap, Except.error.injEq] at h
        subst h
        rcases dispatchSwitch_mcp_code env st name args e0 hres with h1 | h1
        · exact Or.inl h1
        · exact Or.inr (Or.inl h1)
      | other d =>
        simp only [catchWrap, Except.error.injEq] at h
        subst h
        exact Or.inr (Or.inr rfl)

/-- C3 witness: a handler failure is wrapped into internal-error with its
description, and a validation `McpError` passes through unchanged. -/
theorem claim3_witness :
    (callTool failEnv none "get_artist" (some [("id", .str "x")])).result =
      .error ⟨.internalError, "Unexpected error: boom"⟩
    ∧ (callTool failEnv none "get_artist" none).result =
      .error ⟨.invalidParams, "Arguments are required"⟩ :=
  ⟨(claim3_protocol_error_codes failEnv none "get_artist"
      (some [("id", .str "x")])).2.1 "boom" rfl,
   (claim3_protocol_error_codes failEnv none "get_artist" none).1
      ⟨.invalidParams, "Arguments are required"⟩ rfl⟩

/-- C4: a tool name outside the declared catalog fails with a
method-not-found error, not an internal error. -/
theorem claim4_unknown_tool (env : Env) (st : Option TokenInfo) (args : Option Args)
    (name : String) (h : name ∉ toolCatalog.map ToolDecl.name) :
    (callTool env st name args).result =
      .error ⟨.methodNotFound, "Unknown tool: " ++ name⟩ :=
  unknownTool_result env st args name h

/-- C4 witness: calling `frobnicate`. -/
theorem claim4_witness :
    (callTool sampleEnv none "frobnicate" none).result =
      .error ⟨.methodNotFound, "Unknown tool: frobnicate"⟩ :=
  claim4_unknown_tool sampleEnv none none "frobnicate" (by decide)

/-- C6: (spec-modelled `AuthManager`) a second `get_access_token` call
within the held token's validity window (margin included) returns the very
same result with zero network calls; a call after the token's expiry makes
exactly one new exchange. -/
theorem claim6_token_caching (env1 env2 : Env) (st : Option TokenInfo)
    (t : TokenInfo) (h1 : (callTool env1 st "get_access_token" none).state = some t) :
    (env2.now + tokenSafetyMargin < t.expiry →
      callTool env2 (callTool env1 st "get_access_token" none).state
          "get_access_token" none =
        ⟨(callTool env1 st "get_access_token" none).result, some t, []⟩)
    ∧ (t.expiry ≤ env2.now →
      (callTool env2 (callTool env1 st "get_access_token" none).state
          "get_access_token" none).calls = [.tokenExchange]) := by
  have htok : (getAccessToken env1.now env1.exchange st).token = t := by
    have hst := getAccessToken_state_eq_token env1.now env1.exchange st
    have h1' : (getAccessToken env1.now env1.exchange st).state = some t := h1
    rw [hst] at h1'
    exact Option.some.inj h1'
  constructor
  · intro hvalid
    have hga : getAccessToken env2.now env2.exchange (some t) = ⟨t, some t, 0⟩ := by
      unfold getAccessToken
      dsimp only
      rw [if_pos hvalid]
    rw [h1, token_call_eq env2 (some t) none, hga, token_call_eq env1 st none, htok]
    rfl
  · intro hexp
    have hga : getAccessToken env2.now env2.exchange (some t) =
        ⟨⟨env2.exchange.value, env2.now + env2.exchange.expiresIn⟩,
         some ⟨env2.exchange.value, env2.now + env2.exchange.expiresIn⟩, 1⟩ := by
      unfold getAccessToken
      dsimp only
      rw [if_neg (by omega)]
    rw [h1, token_call_eq env2 (some t) none, hga]
    rfl

/-- C6 witness: starting cold at time 0, a call at time 1000 reuses the
token with no network call, while a call at time 5000 (past expiry 3600)
makes exactly one exchange. -/
theorem claim6_witness :
    callTool ⟨1000, ⟨"tok2", 3600⟩, fun _ _ => .ok sampleApiBody⟩
        (callTool ⟨0, ⟨"tok1", 3600⟩, fun _ _ => .ok sampleApiBody⟩ none
          "get_access_token" none).state "get_access_token" none =
      ⟨(callTool ⟨0, ⟨"tok1", 3600⟩, fun _ _ => .ok sampleApiBody⟩ none
          "get_access_token" none).result, some ⟨"tok1", 3600⟩, []⟩
    ∧ (callTool ⟨5000, ⟨"tok3", 3600⟩, fun _ _ => .ok sampleApiBody⟩
        (callTool ⟨0, ⟨"tok1", 3600⟩, fun _ _ => .ok sampleApiBody⟩ none
          "get_access_token" none).state "get_access_token" none).calls =
      [.tokenExchange] :=
  ⟨(claim6_token_caching ⟨0, ⟨"tok1", 3600⟩, fun _ _ => .ok sampleApiBody⟩
      ⟨1000, ⟨"tok2", 3600⟩, fun _ _ => .ok sampleApiBody⟩ none ⟨"tok1", 3600⟩ rfl).1
    (by decide),
   (claim6_token_caching ⟨0, ⟨"tok1", 3600⟩, fun _ _ => .ok sampleApiBody⟩
      ⟨5000, ⟨"tok3", 3600⟩, fun _ _ => .ok sampleApiBody⟩ none ⟨"tok1", 3600⟩ rfl).2
    (by decide)⟩

/-- C7: validation checks key presence only; an object holding every
required key passes and is forwarded to the handler unchanged, whatever the
values are — `search` with a `limit` of `"banana"` reaches the network
layer. -/
theorem claim7_presence_only (a : Args) (required : List String) (env : Env)
    (st : Option TokenInfo) :
    ((∀ f ∈ required, hasField a f = true) → validateArgs (some a) required = .ok a)
    ∧ (hasField a "query" = true → hasField a "type" = true →
        callTool env st "search" (some a) = apiCallOutput env st "search" a) := by
  refine ⟨fun h => validateArgs_ok h, ?_⟩
  intro hq ht
  have hok : validateArgs (some a) ["query", "type"] = .ok a := by
    apply validateArgs_ok
    intro f hf
    rcases List.mem_cons.mp hf with rfl | hf2
    · exact hq
    · rcases List.mem_cons.mp hf2 with rfl | hf3
      · exact ht
      · cases hf3
  exact validatedCall_ok hok

/-- C7 witness: `search` with `limit: "banana"` passes validation and is
forwarded to the handler as given. -/
theorem claim7_witness :
    validateArgs (some [("query", .str "x"), ("type", .str "track"),
        ("limit", .str "banana")]) ["query", "type"] =
      .ok [("query", .str "x"), ("type", .str "track"), ("limit", .str "banana")]
    ∧ callTool sampleEnv none "search" (some [("query", .str "x"),
        ("type", .str "track"), ("limit", .str "banana")]) =
      apiCallOutput sampleEnv none "search" [("query", .str "x"),
        ("type", .str "track"), ("limit", .str "banana")] := by
  have h := claim7_presence_only [("query", .str "x"), ("type", .str "track"),
    ("limit", .str "banana")] ["query", "type"] sampleEnv none
  exact ⟨h.1 (by decide), h.2 (by rfl) (by rfl)⟩

/-- The 51-element ids list of the C8 counterexample. -/
def ids51 : List Json := List.replicate 51 (Json.str "a")

/-- Its argument object. -/
def args51 : Args := [("ids", Json.arr ids51)]

/-- C8 counterexample: `get_multiple_artists` with 51 ids is neither
rejected nor truncated: the call succeeds and the full 51-element list is
forwarded to the network layer, although the schema advertises
`maxItems: 50`. -/
theorem claim8_counterexample :
    (callTool sampleEnv (some ⟨"t", 10000⟩) "get_multiple_artists"
        (some args51)).calls = [.apiRequest "get_multiple_artists" args51]
    ∧ (callTool sampleEnv (some ⟨"t", 10000⟩) "get_multiple_artists"
        (some args51)).result = .ok ⟨[⟨"text", stringify sampleApiBody⟩]⟩
    ∧ ids51.length = 51
    ∧ (toolCatalog.filter (fun d => d.name == "get_multiple_artists")).map
        ToolDecl.maxIds = [some 50] :=
  ⟨rfl, rfl, by simp [ids51], rfl⟩

/-- C8 (amended): the `maxItems: 50` bound is advisory schema metadata
only — a 51-id call passes the presence-only validation and the whole list
is forwarded unchanged to the handler; no rejection or truncation happens
server-side. -/
theorem claim8_ids_not_limited (env : Env) (st : Option TokenInfo) (ids : List Json)
    (_hlen : ids.length = 51) :
    callTool env st "get_multiple_artists" (some [("ids", Json.arr ids)]) =
      apiCallOutput env st "get_multiple_artists" [("ids", Json.arr ids)] := by
  refine validatedCall_ok (validateArgs_ok ?_)
  intro f hf
  rcases List.mem_cons.mp hf with rfl | hf2
  · rfl
  · cases hf2

/-- C8 witness for the amended statement. -/
theorem claim8_witness :
    callTool sampleEnv none "get_multiple_artists" (some [("ids", Json.arr ids51)]) =
      apiCallOutput sampleEnv none "get_multiple_artists" [("ids", Json.arr ids51)] :=
  claim8_ids_not_limited sampleEnv none ids51 (by simp [ids51])

/-- C9: the catalog declares exactly the fifteen tools with the required
arguments as listed, and the dispatcher recognises exactly the catalog
names: a call fails with method-not-found precisely when the name is
outside the catalog. -/
theorem claim9_catalog_exact :
    toolCatalog.map (fun d => (d.name, d.required)) =
      [("get_access_token", []), ("search", ["query", "type"]),
       ("get_artist", ["id"]), ("get_multiple_artists", ["ids"]),
       ("get_artist_top_tracks", ["id"]), ("get_artist_related_artists", ["id"]),
       ("get_artist_albums", ["id"]), ("get_album", ["id"]),
       ("get_album_tracks", ["id"]), ("get_multiple_albums", ["ids"]),
       ("get_track", ["id"]), ("get_available_genres", []),
       ("get_new_releases", []), ("get_recommendations", []),
       ("get_audiobook", ["id"])]
    ∧ ∀ (env : Env) (st : Option TokenInfo) (name : String) (args : Option Args),
        (∃ e, (callTool env st name args).result = .error e
          ∧ e.code = .methodNotFound)
          ↔ name ∉ toolCatalog.map ToolDecl.name := by
  refine ⟨rfl, ?_⟩
  intro env st name args
  constructor
  · rintro ⟨e, herr, hcode⟩ hmem
    rcases knownTool_error_code env st name args e hmem herr with h | h <;>
      (rw [h] at hcode; cases hcode)
  · intro hmem
    exact ⟨⟨.methodNotFound, "Unknown tool: " ++ name⟩,
      unknownTool_result env st args name hmem, rfl⟩

/-- C10: the four tools with no required fields never produce a validation
error on an absent argument object: `get_access_token` ignores arguments
and always succeeds, `get_available_genres` skips validation, and
`get_new_releases`/`get_recommendations` substitute an empty object, so all
of them go straight to their handler. -/
theorem claim10_no_required_fields (env : Env) (st : Option TokenInfo)
    (args : Option Args) :
    callTool env st "get_access_token" args = callTool env st "get_access_token" none
    ∧ (∃ r, (callTool env st "get_access_token" args).result = .ok r)
    ∧ callTool env st "get_available_genres" args =
        apiCallOutput env st "get_available_genres" []
    ∧ callTool env st "get_new_releases" none =
        apiCallOutput env st "get_new_releases" []
    ∧ callTool env st "get_recommendations" none =
        apiCallOutput env st "get_recommendations" []
    ∧ (∀ a, callTool env st "get_new_releases" (some a) =
        apiCallOutput env st "get_new_releases" a)
    ∧ (∀ a, callTool env st "get_recommendations" (some a) =
        apiCallOutput env st "get_recommendations" a) := by
  refine ⟨rfl, ⟨_, rfl⟩, rfl, rfl, rfl, ?_, ?_⟩ <;>
    exact fun a => validatedCall_ok (validateArgs_ok (fun f hf => absurd hf (List.not_mem_nil f)))

/-! ### A model of `JSON.parse`

Restricted, like the printer, to integral numbers and to strings of Unicode
scalar values; `\uXXXX` escapes decode single scalar values (no surrogate
pairs).  Everything the printer above emits is within this fragment. -/

/-- JSON insignificant whitespace. -/
def isWs (c : Char) : Bool := c = ' ' || c = '\n' || c = '\t' || c = '\r'

/-- Drop leading whitespace. -/
def skipWs (l : List Char) : List Char := l.dropWhile isWs

/-- An ASCII decimal digit. -/
def isDigitCh (c : Char) : Bool := 48 ≤ c.toNat && c.toNat ≤ 57

/-- Numeric value of a decimal digit character. -/
def charToDigit (c : Char) : Nat := c.toNat - 48

/-- Split off the longest leading run of digits. -/
def takeDigits : List Char → List Char × List Char
  | [] => ([], [])
  | c :: cs =>
    if isDigitCh c then
      let p := takeDigits cs
      (c :: p.1, p.2)
    else ([], c :: cs)

/-- Value of a digit run, most significant first. -/
def digitsToNat (l : List Char) : Nat :=
  l.foldl (fun acc c => acc * 10 + charToDigit c) 0

/-- Parse a non-empty digit run into its value. -/
def parseNat (l : List Char) : Option (Nat × List Char) :=
  match takeDigits l with
  | (ds, rest) => if ds.isEmpty then none else some (digitsToNat ds, rest)

/-- Numeric value of a hexadecimal digit character. -/
def hexVal (c : Char) : Option Nat :=
  if 48 ≤ c.toNat ∧ c.toNat ≤ 57 then some (c.toNat - 48)
  else if 97 ≤ c.toNat ∧ c.toNat ≤ 102 then some (c.toNat - 87)
  else if 65 ≤ c.toNat ∧ c.toNat ≤ 70 then some (c.toNat - 55)
  else none

/-- The character denoted by a simple (one-letter) escape. -/
def decodeEsc (e : Char) : Option Char :=
  if e = '"' then some '"'
  else if e = '\\' then some '\\'
  else if e = '/' then some '/'
  else if e = 'b' then some '\x08'
  else if e = 't' then some '\x09'
  else if e = 'n' then some '\x0a'
  else if e = 'f' then some '\x0c'
  else if e = 'r' then some '\x0d'
  else none

/-- Parse the body of a string literal, after its opening quote, up to and
including its closing quote: escapes are decoded, a raw control character
is rejected. -/
def parseStringBody : List Char → Option (List Char × List Char)
  | [] => none
  | c :: cs =>
    if c = '"' then some ([], cs)
    else if c = '\\' then
      match cs with
      | [] => none
      | e :: cs2 =>
        if e = 'u' then
          match cs2 with
          | h1 :: h2 :: h3 :: h4 :: cs3 =>
            match hexVal h1, hexVal h2, hexVal h3, hexVal h4 with
            | some a, some b, some x, some y =>
              let n := ((a * 16 + b) * 16 + x) * 16 + y
              if n < 55296 then
                (parseStringBody cs3).map (fun p => (Char.ofNat n :: p.1, p.2))
              else none
            | _, _, _, _ => none
          | _ => none
        else
          match decodeEsc e with
          | some c2 => (parseStringBody cs2).map (fun p => (c2 :: p.1, p.2))
          | none => none
    else if c.toNat < 32 then none
    else (parseStringBody cs).map (fun p => (c :: p.1, p.2))

mutual

/-- Parse one JSON value, fuelled: whitespace, then a keyword, string,
number, array or object. -/
def parseValue : Nat → List Char → Option (Json × List Char)
  | 0, _ => none
  | f + 1, input =>
    match skipWs input with
    | [] => none
    | c :: cs =>
      if c = 'n' then
        match cs with
        | c1 :: c2 :: c3 :: rest =>
          if c1 = 'u' then if c2 = 'l' then if c3 = 'l' then
            some (.null, rest) else none else none else none
        | _ => none
      else if c = 't' then
        match cs with
        | c1 :: c2 :: c3 :: rest =>
          if c1 = 'r' then if c2 = 'u' then if c3 = 'e' then
            some (.bool true, rest) else none else none else none
        | _ => none
      else if c = 'f' then
        match cs with
        | c1 :: c2 :: c3 :: c4 :: rest =>
          if c1 = 'a' then if c2 = 'l' then if c3 = 's' then if c4 = 'e' then
            some (.bool false, rest) else none else none else none else none
        | _ => none
      else if c = '"' then
        (parseStringBody cs).map (fun p => (.str (String.mk p.1), p.2))
      else if c = '-' then
        (parseNat cs).map (fun p => (.num (-(p.1 : Int)), p.2))
      else if c = '[' then
        match skipWs cs with
        | [] => none
        | c2 :: cs2 =>
          if c2 = ']' then some (.arr [], cs2)
          else (parseElems f (c2 :: cs2)).map (fun p => (.arr p.1, p.2))
      else if c = '\x7b' then
        match skipWs cs with
        | [] => none
        | c2 :: cs2 =>
          if c2 = '\x7d' then some (.obj [], cs2)
          else (parseMembers f (c2 :: cs2)).map (fun p => (.obj p.1, p.2))
      else if isDigitCh c then
        (parseNat (c :: cs)).map (fun p => (.num (p.1 : Int), p.2))
      else none

/-- Parse the elements of a non-empty array, positioned at its first
element, up to and including the closing bracket. -/
def parseElems : Nat → List Char → Option (List Json × List Char)
  | 0, _ => none
  | f + 1, input =>
    match parseValue f input with
    | none => none
    | some (v, rest) =>
      match skipWs rest with
      | [] => none
      | c :: rest2 =>
        if c = ',' then (parseElems f rest2).map (fun p => (v :: p.1, p.2))
        else if c = ']' then some ([v], rest2)
        else none

/-- Parse the members of a non-empty object, positioned at its first key,
up to and including the closing brace. -/
def parseMembers : Nat → List Char → Option (List (String × Json) × List Char)
  | 0, _ => none
  | f + 1, input =>
    match skipWs input with
    | [] => none
    | c :: cs =>
      if c = '"' then
        match parseStringBody cs with
        | none => none
        | some (k, rest) =>
          match skipWs rest with
          | [] => none
          | c2 :: rest2 =>
            if c2 = ':' then
              match parseValue f rest2 with
              | none => none
              | some (v, rest3) =>
                match skipWs rest3 with
                | [] => none
                | c3 :: rest4 =>
                  if c3 = ',' then
                    (parseMembers f rest4).map (fun p => ((String.mk k, v) :: p.1, p.2))
                  else if c3 = '\x7d' then some ([(String.mk k, v)], rest4)
                  else none
            else none
      else none

end

/-- `JSON.parse`: one value, with nothing but whitespace after it. -/
def parseJson (s : String) : Option Json :=
  match parseValue (2 * s.data.length + 1) s.data with
  | some (v, rest) => if (skipWs rest).isEmpty then some v else none
  | none => none

/-! ### Round-trip: auxiliary lemmas -/

/-- A list headed by a non-digit (or empty), so that a greedy digit run
stops exactly there. -/
def noDigitStart : List Char → Prop
  | [] => True
  | c :: _ => isDigitCh c = false

/-- Heads that a rendered value can start with: never whitespace and never
a closing bracket, so the parser's lookahead is unambiguous. -/
def goodStart : List Char → Prop
  | [] => False
  | c :: _ => isWs c = false ∧ c ≠ ']' ∧ c ≠ '\x7d'

theorem skipWs_cons_of_not_ws {c : Char} (h : isWs c = false) (l : List Char) :
    skipWs (c :: l) = c :: l := by
  simp [skipWs, List.dropWhile_cons, h]

theorem skipWs_cons_of_ws {c : Char} (h : isWs c = true) (l : List Char) :
    skipWs (c :: l) = skipWs l := by
  simp [skipWs, List.dropWhile_cons, h]

theorem skipWs_indent (n : Nat) (l : List Char) :
    skipWs (indentChars n ++ l) = skipWs l := by
  induction n with
  | zero => rfl
  | succ m ih =>
    have h : indentChars (m + 1) ++ l = ' ' :: (indentChars m ++ l) := by
      simp [indentChars, List.replicate_succ]
    rw [h, skipWs_cons_of_ws (by decide), ih]

theorem goodStart_append {l : List Char} (h : goodStart l) (m : List Char) :
    goodStart (l ++ m) := by
  cases l with
  | nil => cases h
  | cons c t => exact h

theorem skipWs_of_goodStart {l : List Char} (h : goodStart l) : skipWs l = l := by
  cases l with
  | nil => cases h
  | cons c t => exact skipWs_cons_of_not_ws h.1 t

theorem skipWs_length_le (l : List Char) : (skipWs l).length ≤ l.length := by
  induction l with
  | nil => exact Nat.le_refl _
  | cons c t ih =>
    by_cases h : isWs c = true
    · rw [skipWs_cons_of_ws h]
      exact Nat.le_succ_of_le ih
    · rw [skipWs_cons_of_not_ws (by simpa using h)]

theorem goodStart_ne_nil {l : List Char} (h : goodStart l) : l ≠ [] := by
  cases l with
  | nil => cases h
  | cons c t => simp

/-- Digits are not special characters. -/
theorem digit_char_facts {c : Char} (h : isDigitCh c = true) :
    isWs c = false ∧ c ≠ ']' ∧ c ≠ '\x7d' ∧ c ≠ 'n' ∧ c ≠ 't' ∧ c ≠ 'f'
      ∧ c ≠ '"' ∧ c ≠ '-' ∧ c ≠ '[' ∧ c ≠ '\x7b' := by
  simp only [isDigitCh, Bool.and_eq_true, decide_eq_true_eq] at h
  refine ⟨?_, ?_, ?_, ?_, ?_, ?_, ?_, ?_, ?_, ?_⟩
  · simp only [isWs, Bool.or_eq_false_iff, decide_eq_false_iff_not]
    refine ⟨⟨⟨?_, ?_⟩, ?_⟩, ?_⟩ <;> (rintro rfl; exact absurd h (by decide))
  all_goals (rintro rfl; exact absurd h (by decide))

theorem isDigitCh_digitCh : ∀ d, d < 10 → isDigitCh (digitCh d) = true := by decide

theorem charToDigit_digitCh : ∀ d, d < 10 → charToDigit (digitCh d) = d := by decide

theorem natDigits_all_digits (n : Nat) : ∀ c ∈ natDigits n, isDigitCh c = true := by
  induction n using natDigits.induct with
  | case1 n h =>
    intro c hc
    rw [natDigits, if_pos h] at hc
    simp only [List.mem_singleton] at hc
    subst hc
    exact isDigitCh_digitCh n h
  | case2 n h ih =>
    intro c hc
    rw [natDigits, if_neg h] at hc
    rcases List.mem_append.mp hc with h1 | h1
    · exact ih c h1
    · simp only [List.mem_singleton] at h1
      subst h1
      exact isDigitCh_digitCh _ (Nat.mod_lt _ (by omega))

theorem natDigits_ne_nil (n : Nat) : natDigits n ≠ [] := by
  rw [natDigits]
  split
  · simp
  · simp

theorem takeDigits_append {ds rest : List Char} (hds : ∀ c ∈ ds, isDigitCh c = true)
    (hrest : noDigitStart rest) : takeDigits (ds ++ rest) = (ds, rest) := by
  induction ds with
  | nil =>
    cases rest with
    | nil => rfl
    | cons c t =>
      have hc : isDigitCh c = false := hrest
      simp [takeDigits, hc]
  | cons c t ih =>
    have hc := hds c (by simp)
    have ih2 := ih (fun x hx => hds x (by simp [hx]))
    simp only [List.cons_append, takeDigits, hc, if_pos, List.append_eq, ih2]

theorem digitsToNat_natDigits_aux (n : Nat) : ∀ acc,
    (natDigits n).foldl (fun acc c => acc * 10 + charToDigit c) acc
      = acc * 10 ^ (natDigits n).length + n := by
  induction n using natDigits.induct with
  | case1 n h =>
    intro acc
    rw [natDigits, if_pos h]
    simp [charToDigit_digitCh n h]
  | case2 n h ih =>
    intro acc
    rw [natDigits, if_neg h]
    rw [List.foldl_append, ih]
    simp only [List.foldl_cons, List.foldl_nil, List.length_append, List.length_singleton]
    rw [charToDigit_digitCh (n % 10) (Nat.mod_lt _ (by omega))]
    rw [pow_succ]
    have hdm : n / 10 * 10 + n % 10 = n := by omega
    generalize 10 ^ (natDigits (n / 10)).length = p
    ring_nf
    omega

theorem digitsToNat_natDigits (n : Nat) : digitsToNat (natDigits n) = n := by
  have := digitsToNat_natDigits_aux n 0
  simpa [digitsToNat] using this

theorem parseNat_natDigits (n : Nat) {rest : List Char} (h : noDigitStart rest) :
    parseNat (natDigits n ++ rest) = some (n, rest) := by
  obtain ⟨c, t, hct⟩ := List.exists_cons_of_ne_nil (natDigits_ne_nil n)
  unfold parseNat
  rw [takeDigits_append (natDigits_all_digits n) h, hct]
  show some (digitsToNat (c :: t), rest) = some (n, rest)
  rw [← hct, digitsToNat_natDigits]


theorem hexVal_hexCh : ∀ d, d < 16 → hexVal (hexCh d) = some d := by decide

/-- A simple escape parses back to the character it denotes. -/
theorem psb_simple_escape {e c2 : Char} (he : decodeEsc e = some c2) (hene : e ≠ 'u')
    (tail : List Char) :
    parseStringBody ('\\' :: e :: tail)
      = (parseStringBody tail).map (fun p => (c2 :: p.1, p.2)) := by
  rw [parseStringBody.eq_def]
  dsimp only
  rw [if_neg (by decide : ¬('\\' : Char) = '"'), if_pos (rfl : ('\\' : Char) = '\\'),
    if_neg hene, he]

/-- A `\u00XX`-style escape parses back to the encoded scalar value. -/
theorem psb_u_escape {h1 h2 h3 h4 : Char} {a b x y : Nat}
    (hv1 : hexVal h1 = some a) (hv2 : hexVal h2 = some b)
    (hv3 : hexVal h3 = some x) (hv4 : hexVal h4 = some y)
    (hlt : ((a * 16 + b) * 16 + x) * 16 + y < 55296) (tail : List Char) :
    parseStringBody ('\\' :: 'u' :: h1 :: h2 :: h3 :: h4 :: tail)
      = (parseStringBody tail).map
          (fun p => (Char.ofNat (((a * 16 + b) * 16 + x) * 16 + y) :: p.1, p.2)) := by
  rw [parseStringBody.eq_def]
  dsimp only
  rw [if_neg (by decide : ¬('\\' : Char) = '"'), if_pos (rfl : ('\\' : Char) = '\\'),
    if_pos (rfl : ('u' : Char) = 'u'), hv1, hv2, hv3, hv4]
  dsimp only
  rw [if_pos hlt]

/-- An unescaped character parses back to itself. -/
theorem psb_plain {c : Char} (h1 : c ≠ '"') (h2 : c ≠ '\\') (h8 : ¬c.toNat < 32)
    (tail : List Char) :
    parseStringBody (c :: tail)
      = (parseStringBody tail).map (fun p => (c :: p.1, p.2)) := by
  rw [parseStringBody.eq_def]
  dsimp only
  rw [if_neg h1, if_neg h2, if_neg h8]

/-- The escaped body of a string parses back to the original characters. -/
theorem parseStringBody_escList (l rest : List Char) :
    parseStringBody (escList l ++ '"' :: rest) = some (l, rest) := by
  induction l with
  | nil =>
    show parseStringBody ('"' :: rest) = some ([], rest)
    rw [parseStringBody.eq_def]
    dsimp only
    rw [if_pos rfl]
  | cons c t ih =>
    have hesc : escList (c :: t) ++ '"' :: rest
        = escapeChar c ++ (escList t ++ '"' :: rest) := by
      simp [escList]
    rw [hesc]
    by_cases h1 : c = '"'
    · subst h1
      rw [show escapeChar '"' = ['\\', '"'] from rfl]
      simp only [List.cons_append, List.nil_append]
      rw [psb_simple_escape (show decodeEsc '"' = some '"' from by decide)
        (by decide), ih]
      rfl
    · by_cases h2 : c = '\\'
      · subst h2
        rw [show escapeChar '\\' = ['\\', '\\'] from rfl]
        simp only [List.cons_append, List.nil_append]
        rw [psb_simple_escape (show decodeEsc '\\' = some '\\' from by decide)
          (by decide), ih]
        rfl
      · by_cases h3 : c = '\x08'
        · subst h3
          rw [show escapeChar '\x08' = ['\\', 'b'] from rfl]
          simp only [List.cons_append, List.nil_append]
          rw [psb_simple_escape (show decodeEsc 'b' = some '\x08' from by decide)
            (by decide), ih]
          rfl
        · by_cases h4 : c = '\x09'
          · subst h4
            rw [show escapeChar '\x09' = ['\\', 't'] from rfl]
            simp only [List.cons_append, List.nil_append]
            rw [psb_simple_escape (show decodeEsc 't' = some '\x09' from by decide)
              (by decide), ih]
            rfl
          · by_cases h5 : c = '\x0a'
            · subst h5
              rw [show escapeChar '\x0a' = ['\\', 'n'] from rfl]
              simp only [List.cons_append, List.nil_append]
              rw [psb_simple_escape (show decodeEsc 'n' = some '\x0a' from by decide)
                (by decide), ih]
              rfl
            · by_cases h6 : c = '\x0c'
              · subst h6
                rw [show escapeChar '\x0c' = ['\\', 'f'] from rfl]
                simp only [List.cons_append, List.nil_append]
                rw [psb_simple_escape (show decodeEsc 'f' = some '\x0c' from by decide)
                  (by decide), ih]
                rfl
              · by_cases h7 : c = '\x0d'
                · subst h7
                  rw [show escapeChar '\x0d' = ['\\', 'r'] from rfl]
                  simp only [List.cons_append, List.nil_append]
                  rw [psb_simple_escape (show decodeEsc 'r' = some '\x0d' from by decide)
                    (by decide), ih]
                  rfl
                · by_cases h8 : c.toNat < 32
                  · have heq : escapeChar c
                        = ['\\', 'u', '0', '0', hexCh (c.toNat / 16), hexCh (c.toNat % 16)] := by
                      unfold escapeChar
                      rw [if_neg h1, if_neg h2, if_neg h3, if_neg h4, if_neg h5,
                        if_neg h6, if_neg h7, if_pos h8]
                    rw [heq]
                    simp only [List.cons_append, List.nil_append]
                    rw [psb_u_escape (show hexVal '0' = some 0 from by decide)
                      (show hexVal '0' = some 0 from by decide)
                      (hexVal_hexCh _ (by omega)) (hexVal_hexCh _ (by omega))
                      (by omega), ih]
                    have hn2 : c.toNat / 16 * 16 + c.toNat % 16 = c.toNat := by omega
                    simp [hn2, Char.ofNat_toNat]
                  · have heq : escapeChar c = [c] := by
                      unfold escapeChar
                      rw [if_neg h1, if_neg h2, if_neg h3, if_neg h4, if_neg h5,
                        if_neg h6, if_neg h7, if_neg h8]
                    rw [heq]
                    simp only [List.cons_append, List.nil_append]
                    rw [psb_plain h1 h2 h8, ih]
                    rfl


theorem goodStart_cons {c : Char} {t : List Char} (h1 : isWs c = false)
    (h2 : c ≠ ']') (h3 : c ≠ '\x7d') : goodStart (c :: t) := ⟨h1, h2, h3⟩

theorem natDigits_head (n : Nat) :
    ∃ c t, natDigits n = c :: t ∧ isDigitCh c = true := by
  obtain ⟨c, t, h⟩ := List.exists_cons_of_ne_nil (natDigits_ne_nil n)
  exact ⟨c, t, h, natDigits_all_digits n c (by rw [h]; simp)⟩

/-- The first character of a rendered value is never whitespace and never a
closing bracket. -/
theorem renderJson_goodStart (ind : Nat) (j : Json) : goodStart (renderJson ind j) := by
  cases j with
  | null =>
    rw [show renderJson ind .null = ['n', 'u', 'l', 'l'] from by simp [renderJson]]
    exact goodStart_cons (by decide) (by decide) (by decide)
  | bool b =>
    cases b with
    | true =>
      rw [show renderJson ind (.bool true) = ['t', 'r', 'u', 'e'] from by simp [renderJson]]
      exact goodStart_cons (by decide) (by decide) (by decide)
    | false =>
      rw [show renderJson ind (.bool false) = ['f', 'a', 'l', 's', 'e'] from by
        simp [renderJson]]
      exact goodStart_cons (by decide) (by decide) (by decide)
  | num n =>
    rw [show renderJson ind (.num n) = renderInt n from by simp [renderJson]]
    unfold renderInt
    by_cases hneg : n < 0
    · rw [if_pos hneg]
      exact goodStart_cons (by decide) (by decide) (by decide)
    · rw [if_neg hneg]
      obtain ⟨c, t, hct, hdig⟩ := natDigits_head n.toNat
      rw [hct]
      obtain ⟨f1, f2, f3, -⟩ := digit_char_facts hdig
      exact goodStart_cons f1 f2 f3
  | str s =>
    rw [show renderJson ind (.str s) = renderString s from by simp [renderJson]]
    exact goodStart_cons (by decide) (by decide) (by decide)
  | arr xs =>
    cases xs with
    | nil =>
      rw [show renderJson ind (.arr []) = ['[', ']'] from by simp [renderJson]]
      exact goodStart_cons (by decide) (by decide) (by decide)
    | cons x t =>
      rw [show renderJson ind (.arr (x :: t))
          = '[' :: '\n' :: (renderElems (ind + 2) x t ++ '\n' :: (indentChars ind ++ [']']))
        from by simp [renderJson]]
      exact goodStart_cons (by decide) (by decide) (by decide)
  | obj fs =>
    cases fs with
    | nil =>
      rw [show renderJson ind (.obj []) = ['\x7b', '\x7d'] from by simp [renderJson]]
      exact goodStart_cons (by decide) (by decide) (by decide)
    | cons f t =>
      rw [show renderJson ind (.obj (f :: t))
          = '\x7b' :: '\n' :: (renderFields (ind + 2) f t
              ++ '\n' :: (indentChars ind ++ ['\x7d']))
        from by simp [renderJson]]
      exact goodStart_cons (by decide) (by decide) (by decide)

/-- What follows an array element in the rendered text: a separating comma
and the next line, or the closing line and bracket. -/
def elemsSuffix (ind cind : Nat) : List Json → List Char → List Char
  | [], rest => '\n' :: (indentChars cind ++ ']' :: rest)
  | y :: ys, rest =>
    ',' :: '\n' :: (indentChars ind ++ (renderJson ind y ++ elemsSuffix ind cind ys rest))

/-- What follows an object member in the rendered text. -/
def fieldsSuffix (ind cind : Nat) : List (String × Json) → List Char → List Char
  | [], rest => '\n' :: (indentChars cind ++ '\x7d' :: rest)
  | (k, v) :: gs, rest =>
    ',' :: '\n' :: (indentChars ind ++ (renderString k ++ ':' :: ' ' ::
      (renderJson ind v ++ fieldsSuffix ind cind gs rest)))

theorem renderElems_decomp (ind cind : Nat) (x : Json) (xs : List Json)
    (rest : List Char) :
    renderElems ind x xs ++ '\n' :: (indentChars cind ++ ']' :: rest)
      = indentChars ind ++ (renderJson ind x ++ elemsSuffix ind cind xs rest) := by
  induction xs generalizing x with
  | nil => simp [renderElems, elemsSuffix]
  | cons y ys ih =>
    have h : renderElems ind x (y :: ys)
        = indentChars ind ++ renderJson ind x ++ ',' :: '\n' :: renderElems ind y ys := by
      simp [renderElems]
    rw [h]
    simp only [List.append_assoc, List.cons_append]
    rw [ih y]
    simp [elemsSuffix]

theorem renderFields_decomp (ind cind : Nat) (f : String × Json)
    (fs : List (String × Json)) (rest : List Char) :
    renderFields ind f fs ++ '\n' :: (indentChars cind ++ '\x7d' :: rest)
      = indentChars ind ++ (renderString f.1 ++ ':' :: ' ' ::
          (renderJson ind f.2 ++ fieldsSuffix ind cind fs rest)) := by
  induction fs generalizing f with
  | nil =>
    obtain ⟨k, v⟩ := f
    simp [renderFields, fieldsSuffix]
  | cons g gs ih =>
    obtain ⟨k, v⟩ := f
    have h : renderFields ind (k, v) (g :: gs)
        = indentChars ind ++ renderString k ++ ':' :: ' ' :: renderJson ind v
            ++ ',' :: '\n' :: renderFields ind g gs := by
      simp [renderFields]
    rw [h]
    simp only [List.append_assoc, List.cons_append]
    rw [ih g]
    simp [fieldsSuffix]

theorem elemsSuffix_noDigitStart (ind cind : Nat) (xs : List Json) (rest : List Char) :
    noDigitStart (elemsSuffix ind cind xs rest) := by
  cases xs with
  | nil => exact (by decide : isDigitCh '\n' = false)
  | cons y ys => exact (by decide : isDigitCh ',' = false)

theorem fieldsSuffix_noDigitStart (ind cind : Nat) (fs : List (String × Json))
    (rest : List Char) : noDigitStart (fieldsSuffix ind cind fs rest) := by
  cases fs with
  | nil => exact (by decide : isDigitCh '\n' = false)
  | cons g gs =>
    obtain ⟨k, v⟩ := g
    exact (by decide : isDigitCh ',' = false)


theorem stringMk_data (s : String) : String.mk s.data = s := rfl

theorem goodStart_renderString_append (k : String) (X : List Char) :
    goodStart (renderString k ++ X) :=
  goodStart_cons (by decide) (by decide) (by decide)

/-- Fuel-indexed statement: any input whose significant part is a rendered
value followed by a non-digit tail parses back to that value, consuming
exactly the rendered text. -/
def ParseValueOK (f : Nat) : Prop :=
  ∀ (j : Json) (ind : Nat) (rest input : List Char),
    skipWs input = renderJson ind j ++ rest →
    2 * input.length < f →
    noDigitStart rest →
    parseValue f input = some (j, rest)

/-- Fuel-indexed statement for a rendered element sequence. -/
def ParseElemsOK (f : Nat) : Prop :=
  ∀ (x : Json) (xs : List Json) (ind cind : Nat) (rest input : List Char),
    skipWs input = renderJson ind x ++ elemsSuffix ind cind xs rest →
    2 * input.length + 2 ≤ f →
    parseElems f input = some (x :: xs, rest)

/-- Fuel-indexed statement for a rendered member sequence. -/
def ParseMembersOK (f : Nat) : Prop :=
  ∀ (k : String) (v : Json) (gs : List (String × Json)) (ind cind : Nat)
    (rest input : List Char),
    skipWs input = renderString k ++ ':' :: ' ' ::
      (renderJson ind v ++ fieldsSuffix ind cind gs rest) →
    2 * input.length + 2 ≤ f →
    parseMembers f input = some ((k, v) :: gs, rest)

theorem parse_render_step_elems {g : Nat} (hv : ParseValueOK g) (he : ParseElemsOK g) :
    ParseElemsOK (g + 1) := by
  intro x xs ind cind rest input hskip hfuel
  have hrx := renderJson_goodStart ind x
  obtain ⟨cx, tx, hctx⟩ := List.exists_cons_of_ne_nil (goodStart_ne_nil hrx)
  have hxpos : 0 < (renderJson ind x).length := by rw [hctx]; simp
  have hLskip : (skipWs input).length
      = (renderJson ind x).length + (elemsSuffix ind cind xs rest).length := by
    rw [hskip]; simp
  have hle := skipWs_length_le input
  rw [parseElems.eq_def]
  dsimp only
  rw [hv x ind (elemsSuffix ind cind xs rest) input hskip (by omega)
    (elemsSuffix_noDigitStart ind cind xs rest)]
  dsimp only
  cases xs with
  | nil =>
    rw [show elemsSuffix ind cind [] rest = '\n' :: (indentChars cind ++ ']' :: rest)
      from rfl]
    rw [skipWs_cons_of_ws (by decide), skipWs_indent,
      skipWs_cons_of_not_ws (by decide)]
    dsimp only
    rw [if_neg (by decide), if_pos rfl]
  | cons y ys =>
    rw [show elemsSuffix ind cind (y :: ys) rest
        = ',' :: '\n' :: (indentChars ind
            ++ (renderJson ind y ++ elemsSuffix ind cind ys rest)) from rfl]
    rw [skipWs_cons_of_not_ws (by decide)]
    dsimp only
    rw [if_pos rfl]
    have hskip2 : skipWs ('\n' :: (indentChars ind
        ++ (renderJson ind y ++ elemsSuffix ind cind ys rest)))
        = renderJson ind y ++ elemsSuffix ind cind ys rest := by
      rw [skipWs_cons_of_ws (by decide), skipWs_indent,
        skipWs_of_goodStart (goodStart_append (renderJson_goodStart ind y) _)]
    have hlen2 : (elemsSuffix ind cind (y :: ys) rest).length
        = 2 + (ind + ((renderJson ind y).length
            + (elemsSuffix ind cind ys rest).length)) := by
      rw [show elemsSuffix ind cind (y :: ys) rest
          = ',' :: '\n' :: (indentChars ind
              ++ (renderJson ind y ++ elemsSuffix ind cind ys rest)) from rfl]
      simp [indentChars]
      omega
    rw [he y ys ind cind rest _ hskip2 (by
      simp only [List.length_cons, List.length_append, indentChars,
        List.length_replicate]
      omega)]
    rfl

theorem parse_render_step_members {g : Nat} (hv : ParseValueOK g)
    (hm : ParseMembersOK g) : ParseMembersOK (g + 1) := by
  intro k v gs ind cind rest input hskip hfuel
  have hskipn : skipWs input = '"' :: (escList k.data
      ++ '"' :: ':' :: ' ' :: (renderJson ind v ++ fieldsSuffix ind cind gs rest)) := by
    rw [hskip, renderString]
    simp
  have hLskip : (skipWs input).length
      = 1 + ((escList k.data).length
          + (3 + ((renderJson ind v).length + (fieldsSuffix ind cind gs rest).length))) := by
    rw [hskipn]
    simp only [List.length_cons, List.length_append]
    omega
  have hle := skipWs_length_le input
  rw [parseMembers.eq_def]
  dsimp only
  rw [hskipn]
  dsimp only
  rw [if_pos rfl]
  rw [parseStringBody_escList]
  dsimp only
  rw [skipWs_cons_of_not_ws (by decide)]
  dsimp only
  rw [if_pos rfl]
  have hskip2 : skipWs (' ' :: (renderJson ind v ++ fieldsSuffix ind cind gs rest))
      = renderJson ind v ++ fieldsSuffix ind cind gs rest := by
    rw [skipWs_cons_of_ws (by decide),
      skipWs_of_goodStart (goodStart_append (renderJson_goodStart ind v) _)]
  rw [hv v ind (fieldsSuffix ind cind gs rest) _ hskip2 (by
      have h1 := hLskip
      have h2 := hle
      simp only [List.length_cons, List.length_append]
      omega)
    (fieldsSuffix_noDigitStart ind cind gs rest)]
  dsimp only
  cases gs with
  | nil =>
    rw [show fieldsSuffix ind cind [] rest
        = '\n' :: (indentChars cind ++ '\x7d' :: rest) from rfl]
    rw [skipWs_cons_of_ws (by decide), skipWs_indent,
      skipWs_cons_of_not_ws (by decide)]
    dsimp only
    rw [if_neg (by decide), if_pos rfl, stringMk_data]
  | cons g2 gs2 =>
    obtain ⟨k2, v2⟩ := g2
    rw [show fieldsSuffix ind cind ((k2, v2) :: gs2) rest
        = ',' :: '\n' :: (indentChars ind ++ (renderString k2 ++ ':' :: ' ' ::
            (renderJson ind v2 ++ fieldsSuffix ind cind gs2 rest))) from rfl]
    rw [skipWs_cons_of_not_ws (by decide)]
    dsimp only
    rw [if_pos rfl]
    have hskip3 : skipWs ('\n' :: (indentChars ind ++ (renderString k2 ++ ':' :: ' ' ::
        (renderJson ind v2 ++ fieldsSuffix ind cind gs2 rest))))
        = renderString k2 ++ ':' :: ' ' ::
            (renderJson ind v2 ++ fieldsSuffix ind cind gs2 rest) := by
      rw [skipWs_cons_of_ws (by decide), skipWs_indent,
        skipWs_of_goodStart (goodStart_renderString_append k2 _)]
    have hlen3 : (fieldsSuffix ind cind ((k2, v2) :: gs2) rest).length
        = 2 + (ind + ((renderString k2).length + (1 + (1 +
            ((renderJson ind v2).length + (fieldsSuffix ind cind gs2 rest).length))))) := by
      rw [show fieldsSuffix ind cind ((k2, v2) :: gs2) rest
          = ',' :: '\n' :: (indentChars ind ++ (renderString k2 ++ ':' :: ' ' ::
              (renderJson ind v2 ++ fieldsSuffix ind cind gs2 rest))) from rfl]
      simp [indentChars]
      omega
    rw [hm k2 v2 gs2 ind cind rest _ hskip3 (by
      simp only [List.length_cons, List.length_append, indentChars,
        List.length_replicate]
      omega)]
    rw [stringMk_data]
    rfl


theorem parse_render_step_value {g : Nat} (he : ParseElemsOK g) (hm : ParseMembersOK g) :
    ParseValueOK (g + 1) := by
  intro j ind rest input hskip hfuel hnd
  cases j with
  | null =>
    rw [show renderJson ind Json.null = ['n', 'u', 'l', 'l'] from by simp [renderJson]]
      at hskip
    simp only [List.cons_append, List.nil_append] at hskip
    rw [parseValue.eq_def]
    dsimp only
    rw [hskip]
    simp
  | bool b =>
    cases b with
    | true =>
      rw [show renderJson ind (Json.bool true) = ['t', 'r', 'u', 'e'] from by
        simp [renderJson]] at hskip
      simp only [List.cons_append, List.nil_append] at hskip
      rw [parseValue.eq_def]
      dsimp only
      rw [hskip]
      simp
    | false =>
      rw [show renderJson ind (Json.bool false) = ['f', 'a', 'l', 's', 'e'] from by
        simp [renderJson]] at hskip
      simp only [List.cons_append, List.nil_append] at hskip
      rw [parseValue.eq_def]
      dsimp only
      rw [hskip]
      simp
  | num n =>
    rw [show renderJson ind (Json.num n) = renderInt n from by simp [renderJson]] at hskip
    by_cases hneg : n < 0
    · rw [renderInt, if_pos hneg] at hskip
      simp only [List.cons_append] at hskip
      rw [parseValue.eq_def]
      dsimp only
      rw [hskip]
      dsimp only
      rw [if_neg (by decide), if_neg (by decide), if_neg (by decide), if_neg (by decide),
        if_pos rfl]
      rw [parseNat_natDigits n.natAbs hnd]
      simp only [Option.map_some']
      have hval : -((n.natAbs : Nat) : Int) = n := by omega
      rw [hval]
    · rw [renderInt, if_neg hneg] at hskip
      obtain ⟨cd, td, hctd, hdig⟩ := natDigits_head n.toNat
      obtain ⟨f1, f2, f3, f4, f5, f6, f7, f8, f9, f10⟩ := digit_char_facts hdig
      rw [hctd] at hskip
      simp only [List.cons_append] at hskip
      rw [parseValue.eq_def]
      dsimp only
      rw [hskip]
      dsimp only
      rw [if_neg f4, if_neg f5, if_neg f6, if_neg f7, if_neg f8, if_neg f9, if_neg f10,
        if_pos hdig]
      rw [show cd :: (td ++ rest) = natDigits n.toNat ++ rest from by
        rw [hctd, List.cons_append]]
      rw [parseNat_natDigits n.toNat hnd]
      simp only [Option.map_some']
      have hval : ((n.toNat : Nat) : Int) = n := Int.toNat_of_nonneg (by omega)
      rw [hval]
  | str s =>
    rw [show renderJson ind (Json.str s) = renderString s from by simp [renderJson],
      renderString] at hskip
    simp only [List.cons_append, List.append_assoc, List.singleton_append,
      List.nil_append] at hskip
    rw [parseValue.eq_def]
    dsimp only
    rw [hskip]
    dsimp only
    rw [if_neg (by decide), if_neg (by decide), if_neg (by decide), if_pos rfl]
    rw [parseStringBody_escList]
    simp only [Option.map_some']
  | arr xs =>
    cases xs with
    | nil =>
      rw [show renderJson ind (Json.arr []) = ['[', ']'] from by simp [renderJson]]
        at hskip
      simp only [List.cons_append, List.nil_append] at hskip
      rw [parseValue.eq_def]
      dsimp only
      rw [hskip]
      dsimp only
      rw [if_neg (by decide), if_neg (by decide), if_neg (by decide), if_neg (by decide),
        if_neg (by decide), if_pos rfl]
      rw [skipWs_cons_of_not_ws (by decide)]
      dsimp only
      rw [if_pos rfl]
    | cons x txs =>
      rw [show renderJson ind (Json.arr (x :: txs))
          = '[' :: '\n' :: (renderElems (ind + 2) x txs
              ++ '\n' :: (indentChars ind ++ [']'])) from by simp [renderJson]] at hskip
      simp only [List.cons_append, List.append_assoc, List.singleton_append,
        List.nil_append] at hskip
      rw [renderElems_decomp (ind + 2) ind x txs rest] at hskip
      have hL : (skipWs input).length = 2 + ((ind + 2)
          + ((renderJson (ind + 2) x).length
              + (elemsSuffix (ind + 2) ind txs rest).length)) := by
        rw [hskip]
        simp [indentChars]
        omega
      have hle := skipWs_length_le input
      have hLa : (renderJson (ind + 2) x ++ elemsSuffix (ind + 2) ind txs rest).length
          = (renderJson (ind + 2) x).length
              + (elemsSuffix (ind + 2) ind txs rest).length := by simp
      have hgx := renderJson_goodStart (ind + 2) x
      obtain ⟨cx, tx, hctx⟩ := List.exists_cons_of_ne_nil (goodStart_ne_nil hgx)
      have hgx2 := hgx
      rw [hctx] at hgx2
      obtain ⟨g1, g2, g3⟩ := hgx2
      rw [parseValue.eq_def]
      dsimp only
      rw [hskip]
      dsimp only
      rw [if_neg (by decide), if_neg (by decide), if_neg (by decide), if_neg (by decide),
        if_neg (by decide), if_pos rfl]
      rw [skipWs_cons_of_ws (by decide), skipWs_indent,
        skipWs_of_goodStart (goodStart_append hgx _), hctx, List.cons_append]
      dsimp only
      rw [if_neg g2]
      rw [show cx :: (tx ++ elemsSuffix (ind + 2) ind txs rest)
          = renderJson (ind + 2) x ++ elemsSuffix (ind + 2) ind txs rest from by
        rw [hctx, List.cons_append]]
      rw [he x txs (ind + 2) ind rest _
        (skipWs_of_goodStart (goodStart_append hgx _)) (by omega)]
      rfl
  | obj fs =>
    cases fs with
    | nil =>
      rw [show renderJson ind (Json.obj []) = ['\x7b', '\x7d'] from by simp [renderJson]]
        at hskip
      simp only [List.cons_append, List.nil_append] at hskip
      rw [parseValue.eq_def]
      dsimp only
      rw [hskip]
      dsimp only
      rw [if_neg (by decide), if_neg (by decide), if_neg (by decide), if_neg (by decide),
        if_neg (by decide), if_neg (by decide), if_pos rfl]
      rw [skipWs_cons_of_not_ws (by decide)]
      dsimp only
      rw [if_pos rfl]
    | cons f tfs =>
      obtain ⟨k, v⟩ := f
      rw [show renderJson ind (Json.obj ((k, v) :: tfs))
          = '\x7b' :: '\n' :: (renderFields (ind + 2) (k, v) tfs
              ++ '\n' :: (indentChars ind ++ ['\x7d'])) from by simp [renderJson]] at hskip
      simp only [List.cons_append, List.append_assoc, List.singleton_append,
        List.nil_append] at hskip
      rw [renderFields_decomp (ind + 2) ind (k, v) tfs rest] at hskip
      dsimp only at hskip
      have hform : renderString k ++ ':' :: ' ' ::
          (renderJson (ind + 2) v ++ fieldsSuffix (ind + 2) ind tfs rest)
          = '"' :: (escList k.data ++ '"' :: ':' :: ' ' ::
              (renderJson (ind + 2) v ++ fieldsSuffix (ind + 2) ind tfs rest)) := by
        rw [renderString]
        simp
      have hL : (skipWs input).length = 2 + ((ind + 2)
          + ((renderString k).length + (1 + (1 + ((renderJson (ind + 2) v).length
              + (fieldsSuffix (ind + 2) ind tfs rest).length))))) := by
        rw [hskip]
        simp [indentChars]
        omega
      have hle := skipWs_length_le input
      rw [parseValue.eq_def]
      dsimp only
      rw [hskip]
      dsimp only
      rw [if_neg (by decide), if_neg (by decide), if_neg (by decide), if_neg (by decide),
        if_neg (by decide), if_neg (by decide), if_pos rfl]
      rw [skipWs_cons_of_ws (by decide), skipWs_indent,
        skipWs_of_goodStart (goodStart_renderString_append k _), hform]
      dsimp only
      rw [if_neg (by decide)]
      rw [← hform]
      rw [hm k v tfs (ind + 2) ind rest _
        (skipWs_of_goodStart (goodStart_renderString_append k _)) (by
          have hLs : (renderString k ++ ':' :: ' ' :: (renderJson (ind + 2) v
              ++ fieldsSuffix (ind + 2) ind tfs rest)).length
              = (renderString k).length + (1 + (1 + ((renderJson (ind + 2) v).length
                  + (fieldsSuffix (ind + 2) ind tfs rest).length))) := by
            simp
            omega
          omega)]
      rfl

/-- The master round-trip induction: with enough fuel, parsing inverts
rendering. -/
theorem parse_render : ∀ f, ParseElemsOK f ∧ ParseMembersOK f ∧ ParseValueOK f := by
  intro f
  induction f with
  | zero =>
    refine ⟨?_, ?_, ?_⟩
    · intro x xs ind cind rest input hskip hfuel
      exact absurd hfuel (by omega)
    · intro k v gs ind cind rest input hskip hfuel
      exact absurd hfuel (by omega)
    · intro j ind rest input hskip hfuel hnd
      exact absurd hfuel (by omega)
  | succ g ih =>
    obtain ⟨he, hm, hv⟩ := ih
    exact ⟨parse_render_step_elems hv he, parse_render_step_members hv hm,
      parse_render_step_value he hm⟩

/-- `JSON.parse` inverts `JSON.stringify(·, null, 2)`. -/
theorem parseJson_stringify (j : Json) : parseJson (stringify j) = some j := by
  have hdata : (stringify j).data = renderJson 0 j := rfl
  unfold parseJson
  rw [hdata]
  have h := (parse_render (2 * (renderJson 0 j).length + 1)).2.2 j 0 [] (renderJson 0 j)
    (by rw [List.append_nil]; exact skipWs_of_goodStart (renderJson_goodStart 0 j))
    (by omega) trivial
  rw [h]
  rfl


/-! ### Claim 5 -/

/-- The environment of the C5 counterexample: the token endpoint hands out
the opaque value `"abc"`. -/
def tokenEnv : Env := ⟨0, ⟨"abc", 3600⟩, fun _ _ => .ok sampleApiBody⟩

/-- An `ok` result of `catchWrap` comes from an `ok` of the `try` block. -/
theorem catchWrap_ok {X : Except DispatchExn ToolResponse} {r : ToolResponse}
    (h : catchWrap X = .ok r) : X = .ok r := by
  cases X with
  | ok r2 =>
    simp only [catchWrap] at h
    injection h with h2
    rw [h2]
  | error ex => cases ex <;> simp [catchWrap] at h

/-- A successful handler case wraps exactly the stringified upstream
body. -/
theorem handleApi_ok_shape {env : Env} {st : Option TokenInfo} {tool : String}
    {a : Args} {r : ToolResponse} (h : (handleApi env st tool a).result = .ok r) :
    ∃ body, env.api tool a = .ok body ∧ r = ⟨[⟨"text", stringify body⟩]⟩ := by
  unfold handleApi at h
  split at h
  case _ body heq =>
    refine ⟨body, heq, ?_⟩
    cases h
    rfl
  case _ d heq => cases h

/-- Every `ok` of the switch, except `get_access_token`, is the stringified
upstream body that the called tool's own handler returned: some argument
object was handed to `env.api` under the called name, and the response text
is exactly that call's answer. -/
theorem dispatch_ok_shape (env : Env) (st : Option TokenInfo) (name : String)
    (args : Option Args) (r : ToolResponse) (hname : name ≠ "get_access_token")
    (h : (dispatchSwitch env st name args).result = .ok r) :
    ∃ a body, env.api name a = .ok body ∧ r = ⟨[⟨"text", stringify body⟩]⟩ := by
  unfold dispatchSwitch at h
  split at h
  all_goals first
    | exact absurd rfl hname
    | cases h
    | (unfold dispatchValidated at h
       split at h
       · cases h
       · obtain ⟨body, hb, hr⟩ := handleApi_ok_shape h
         exact ⟨_, body, hb, hr⟩)
    | (obtain ⟨body, hb, hr⟩ := handleApi_ok_shape h
       exact ⟨_, body, hb, hr⟩)

/-- C5 counterexample: `get_access_token` is a successful tool call whose
single text block is the bare token value, not pretty-printed JSON — the
token `"abc"` does not parse as JSON at all. -/
theorem claim5_counterexample :
    (callTool tokenEnv none "get_access_token" none).result =
      .ok ⟨[⟨"text", "abc"⟩]⟩
    ∧ parseJson "abc" = none := ⟨rfl, rfl⟩

/-- C5 (amended): for every successful tool call other than
`get_access_token`, there is an upstream response `body` that the called
tool's handler returned — `env.api name a = .ok body` — the result is a
single text content block holding exactly `JSON.stringify(body, null, 2)`
of that very body, and parsing the text back yields `body` itself: the raw
upstream value, structurally equal, no field renamed or dropped. -/
theorem claim5_roundtrip (env : Env) (st : Option TokenInfo) (name : String)
    (args : Option Args) (r : ToolResponse) (hname : name ≠ "get_access_token")
    (hok : (callTool env st name args).result = .ok r) :
    ∃ a body, env.api name a = .ok body
      ∧ r.content = [⟨"text", stringify body⟩]
      ∧ parseJson (stringify body) = some body := by
  have hok2 : (dispatchSwitch env st name args).result = .ok r :=
    catchWrap_ok hok
  obtain ⟨a, body, hb, hr⟩ := dispatch_ok_shape env st name args r hname hok2
  exact ⟨a, body, hb, by rw [hr], parseJson_stringify body⟩

/-- C5 witness: a successful `search` call returns the stringified body of
its own upstream response, and that text parses back to the body. -/
theorem claim5_witness :
    ∃ a body, sampleEnv.api "search" a = .ok body
      ∧ (ToolResponse.mk [⟨"text", stringify sampleApiBody⟩]).content
          = [⟨"text", stringify body⟩]
      ∧ parseJson (stringify body) = some body :=
  claim5_roundtrip sampleEnv none "search"
    (some [("query", Json.str "q"), ("type", Json.str "track")])
    ⟨[⟨"text", stringify sampleApiBody⟩]⟩ (by decide) rfl


end Spotify
